import Mathlib

/-!
Verification of `stateful_registers/register_state.py`: a shallow embedding of
`RegisterValue`, `MultiRegisterValue` and `RegisterState` together with proofs
about construction validation, `read_state` and `write_state`.

Conventions of the embedding:
* Python ints are `Int` (values) or `Nat` (addresses, offsets, widths, raw
  words); `None` is `Option.none`.
* Raised exceptions are modelled with `Except` / an `Option PyErr` component;
  mutations performed before a raise are kept, matching Python semantics.
* Dicts are insertion-ordered association lists with Python dict assignment
  semantics (replace in place, append when new).
* The bus transport is a function `mem : Nat → Nat` giving the device word at
  each address; issued `_read_register` / `_write_register` calls are recorded
  as traces.
-/

namespace StatefulRegisters

/-- The Python exception classes raised by `register_state.py`.  `keyError`
stands for `KeyError`, which is a subclass of `LookupError`. -/
inductive PyErr where
  | typeError
  | valueError
  | keyError
  | attrError
deriving DecidableEq, Repr

deriving instance DecidableEq for Except

/-- Python bitwise complement on int: `~x = -x - 1` exactly. -/
def pyNot (x : Int) : Int := -x - 1

/-- Python `x << n` on int with a natural shift count: exactly `x * 2 ^ n`,
also for negative `x`. -/
def pyShl (x : Int) (n : Nat) : Int := x * 2 ^ n

/-- `m AND NOT n` on naturals (`Nat.ldiff`), written with kernel-computable
operations: clearing the bits of `m &&& n` out of `m` is an xor with that
submask. -/
def ldiffN (m n : Nat) : Nat := m ^^^ (m &&& n)

theorem ldiffN_eq_ldiff (m n : Nat) : ldiffN m n = Nat.ldiff m n := by
  refine Nat.eq_of_testBit_eq fun i => ?_
  simp only [ldiffN, Nat.testBit_xor, Nat.testBit_and, Nat.testBit_ldiff]
  cases m.testBit i <;> cases n.testBit i <;> rfl

/-- Python `|` on int: twos-complement bitwise or (same case analysis as
`Int.lor`, stated with kernel-computable operations; see `pyOr_eq_lor`). -/
def pyOr : Int → Int → Int
  | Int.ofNat m, Int.ofNat n => Int.ofNat (m ||| n)
  | Int.ofNat m, Int.negSucc n => Int.negSucc (ldiffN n m)
  | Int.negSucc m, Int.ofNat n => Int.negSucc (ldiffN m n)
  | Int.negSucc m, Int.negSucc n => Int.negSucc (m &&& n)

theorem pyOr_eq_lor (x y : Int) : pyOr x y = Int.lor x y := by
  cases x <;> cases y <;> simp [pyOr, Int.lor, ldiffN_eq_ldiff]

/-- Python `&` on int: twos-complement bitwise and (same case analysis as
`Int.land`, stated with kernel-computable operations; see `pyAnd_eq_land`). -/
def pyAnd : Int → Int → Int
  | Int.ofNat m, Int.ofNat n => Int.ofNat (m &&& n)
  | Int.ofNat m, Int.negSucc n => Int.ofNat (ldiffN m n)
  | Int.negSucc m, Int.ofNat n => Int.ofNat (ldiffN n m)
  | Int.negSucc m, Int.negSucc n => Int.negSucc (m ||| n)

theorem pyAnd_eq_land (x y : Int) : pyAnd x y = Int.land x y := by
  cases x <;> cases y <;> simp [pyAnd, Int.land, ldiffN_eq_ldiff]

/-- `RegisterValue` (register_state.py lines 16-67): one named bit-field.
`value` models the private `_value` attribute; `none` is Python `None`
(unset).  `writeable` is `True` / `False` / `None`. -/
structure RegisterValue where
  name : String
  address : Nat
  offset : Nat
  nbits : Nat
  writeable : Option Bool
  value : Option Int
deriving DecidableEq, Repr

/-- The `bitmask` property (lines 51-53): `2**self.nbits - 1 << self.offset`
(Python precedence: the subtraction binds before the shift). -/
def RegisterValue.bitmask (r : RegisterValue) : Nat :=
  (2 ^ r.nbits - 1) <<< r.offset

/-- The `value` setter (lines 62-67): raises `ValueError` when
`val >= 2**self.nbits`.  There is no lower-bound check, so negative values
are accepted.  The raise happens before `self._value` is assigned, so on the
error path the field is unchanged. -/
def RegisterValue.setValue (r : RegisterValue) (val : Int) : Except PyErr RegisterValue :=
  if val ≥ 2 ^ r.nbits then Except.error PyErr.valueError
  else Except.ok { r with value := some val }

/-- The `register_value` property (lines 55-57): `self._value << self.offset`;
on an unset field Python raises TypeError (shifting `None`). -/
def RegisterValue.registerValue (r : RegisterValue) : Except PyErr Int :=
  match r.value with
  | none => Except.error PyErr.typeError
  | some v => Except.ok (pyShl v r.offset)

/-- `MultiRegisterValue` (lines 70-104): a named composite whose constituents
are ordered least-significant first. -/
structure MultiRegisterValue where
  name : String
  registers : List RegisterValue
deriving DecidableEq, Repr

/-- The loop of the `MultiRegisterValue.value` property (lines 92-98):
`val |= r.value << bitsdone; bitsdone += r.nbits`.  An unset constituent
raises TypeError (`None << n`). -/
def multiValueGo (val : Int) (bitsdone : Nat) : List RegisterValue → Except PyErr Int
  | [] => Except.ok val
  | r :: rest =>
    match r.value with
    | none => Except.error PyErr.typeError
    | some v => multiValueGo (pyOr val (pyShl v bitsdone)) (bitsdone + r.nbits) rest

/-- The `MultiRegisterValue.value` property (lines 91-98). -/
def MultiRegisterValue.value (mr : MultiRegisterValue) : Except PyErr Int :=
  multiValueGo 0 0 mr.registers

/-- Transcribed from the specification text for comparison with the code
(claim C8): the LSB-first concatenation of (value, width) pairs, each value
shifted left by the cumulative width of the preceding constituents. -/
def specConcatLSB : List (Int × Nat) → Int
  | [] => 0
  | p :: rest => p.1 + specConcatLSB rest * 2 ^ p.2

/-! ### `RegisterState` construction (`__init__` / `_update_registers`) -/

/-- Python dict assignment `d[k] = v` on an insertion-ordered dict: an existing
key keeps its position and gets the new value, a new key is appended. -/
def dictInsert {κ α : Type} [DecidableEq κ] : List (κ × α) → κ → α → List (κ × α)
  | [], k, v => [(k, v)]
  | (k', v') :: rest, k, v =>
    if k' = k then (k, v) :: rest else (k', v') :: dictInsert rest k v

/-- Python dict lookup `d[k]`, `none` when the key is absent (Python raises
KeyError at the use sites). -/
def dictGet {κ α : Type} [DecidableEq κ] : List (κ × α) → κ → Option α
  | [], _ => none
  | (k', v') :: rest, k => if k' = k then some v' else dictGet rest k

/-- A template handed to the `RegisterState` initializer: a mix of plain
`RegisterValue`s and `MultiRegisterValue`s. -/
inductive TemplateEntry where
  | plain (r : RegisterValue)
  | multi (mr : MultiRegisterValue)
deriving DecidableEq, Repr

/-- Line 113-114: `{r.name: r.copy() for r in regs if not isinstance(r,
MultiRegisterValue)}` — `copy` is the identity in the functional model. -/
def buildNameToReg (template : List TemplateEntry) : List (String × RegisterValue) :=
  template.foldl
    (fun d e =>
      match e with
      | TemplateEntry.plain r => dictInsert d r.name r
      | TemplateEntry.multi _ => d)
    []

/-- Line 118-119: `{r.name: r.copy() for r in regs if isinstance(r,
MultiRegisterValue)}`. -/
def buildNameToMultireg (template : List TemplateEntry) : List (String × MultiRegisterValue) :=
  template.foldl
    (fun d e =>
      match e with
      | TemplateEntry.plain _ => d
      | TemplateEntry.multi mr => dictInsert d mr.name mr)
    []

/-- Line 121, inner generator: `self._name_to_reg[r.name] for r in
mr.registers`, forced by `tuple(...)`; the dict lookup raises KeyError (a
subclass of LookupError) when a constituent name matches no plain field. -/
def relinkRegs (d : List (String × RegisterValue)) :
    List RegisterValue → Except PyErr (List RegisterValue)
  | [] => Except.ok []
  | r :: rest =>
    match dictGet d r.name with
    | none => Except.error PyErr.keyError
    | some f =>
      match relinkRegs d rest with
      | Except.error e => Except.error e
      | Except.ok fs => Except.ok (f :: fs)

/-- Lines 120-121 for one composite: rebuild `mr.registers` from the owned
copies, by name. -/
def relinkOne (d : List (String × RegisterValue)) (mr : MultiRegisterValue) :
    Except PyErr MultiRegisterValue :=
  match relinkRegs d mr.registers with
  | Except.error e => Except.error e
  | Except.ok fs => Except.ok { mr with registers := fs }

/-- Lines 120-121: the re-linking loop over `self._name_to_multireg.values()`. -/
def relinkAll (d : List (String × RegisterValue)) :
    List (String × MultiRegisterValue) → Except PyErr (List (String × MultiRegisterValue))
  | [] => Except.ok []
  | (k, mr) :: rest =>
    match relinkOne d mr with
    | Except.error e => Except.error e
    | Except.ok mr' =>
      match relinkAll d rest with
      | Except.error e => Except.error e
      | Except.ok t => Except.ok ((k, mr') :: t)

/-- First-occurrence deduplication with an explicit seen-set: the iteration
order of the keys of a Python dict (or of `sorted(set(...))` before
sorting) built by insertion. -/
def dedupFo (seen : List Nat) : List Nat → List Nat
  | [] => []
  | a :: rest =>
    if a ∈ seen then dedupFo seen rest else a :: dedupFo (a :: seen) rest

/-- The distinct elements of a list, first occurrences in order. -/
def dedupFirst (l : List Nat) : List Nat := dedupFo [] l

/-- Line 128: `addr_to_regs_temp[addr].sort(key=lambda val: val.offset)` plus
line 123-125 grouping: the fields of `regs` registered at `addr`, in offset
order.  Grouping iterates `_name_to_reg.values()`, so a group is exactly the
in-order filter of the owned field list; since field offsets never change,
sorting on access is observationally the same as sorting once. -/
def groupAt (regs : List RegisterValue) (addr : Nat) : List RegisterValue :=
  List.insertionSort (fun a b => a.offset ≤ b.offset)
    (regs.filter (fun r => r.address == addr))

/-- Lines 132-137: the `bits_set` fold, raising ValueError on any overlap
between a field bitmask and the bits already seen. -/
def foldBitsSet (bitsSet : Nat) : List RegisterValue → Except PyErr Nat
  | [] => Except.ok bitsSet
  | reg :: rest =>
    if reg.bitmask &&& bitsSet ≠ 0 then Except.error PyErr.valueError
    else foldBitsSet (bitsSet ||| reg.bitmask) rest

/-- Lines 131-139: validation of one address group — the overlap fold followed
by the word-size check `bits_set >= 2**self.register_size`. -/
def validateAddrGroup (registerSize : Nat) (group : List RegisterValue) : Except PyErr Unit :=
  match foldBitsSet 0 group with
  | Except.error e => Except.error e
  | Except.ok bitsSet =>
    if bitsSet ≥ 2 ^ registerSize then Except.error PyErr.valueError
    else Except.ok ()

/-- Lines 127-139: the validation loop over the address groups. -/
def validateGroups (registerSize : Nat) (regs : List RegisterValue) :
    List Nat → Except PyErr Unit
  | [] => Except.ok ()
  | a :: rest =>
    match validateAddrGroup registerSize (groupAt regs a) with
    | Except.error e => Except.error e
    | Except.ok _ => validateGroups registerSize regs rest

/-- The state of a `RegisterState` instance after `_update_registers`:
`register_size`, the owned plain fields (`_name_to_reg` values in insertion
order — names are dict keys, hence unique) and the re-linked composites
(`_name_to_multireg`; constituents are stored by name because after
re-linking they alias the owned copies). -/
structure RState where
  register_size : Nat
  regs : List RegisterValue
  multiregs : List (String × List String)
deriving DecidableEq, Repr

/-- `_update_registers` (lines 112-139): build the owned field dict, re-link
the composites (KeyError on a dangling constituent name), then group by
address and validate each group. -/
def updateRegisters (registerSize : Nat) (template : List TemplateEntry) :
    Except PyErr RState :=
  let nameToReg := buildNameToReg template
  match relinkAll nameToReg (buildNameToMultireg template) with
  | Except.error e => Except.error e
  | Except.ok multis =>
    let regsList := nameToReg.map (fun p => p.2)
    let addrs := dedupFirst (regsList.map (fun r => r.address))
    match validateGroups registerSize regsList addrs with
    | Except.error e => Except.error e
    | Except.ok _ =>
      Except.ok
        { register_size := registerSize
          regs := regsList
          multiregs := multis.map (fun p => (p.1, p.2.registers.map (fun r => r.name))) }

/-! ### `read_state` -/

/-- A register object passed in the `registers` argument of `read_state` /
`write_state`: one of the file-owned plain fields, designated by its name and
address (`_name_to_reg` keys are unique, so name equality coincides with
Python object identity for owned fields), or a `MultiRegisterValue`,
designated by name. -/
inductive Entry where
  | plain (name : String) (address : Nat)
  | multi (name : String)
deriving DecidableEq, Repr

/-- `reg.address` on a requested entry: a `MultiRegisterValue` has no
`address` attribute, so Python raises AttributeError. -/
def entryAddress : Entry → Except PyErr Nat
  | Entry.plain _ a => Except.ok a
  | Entry.multi _ => Except.error PyErr.attrError

/-- The address list comprehension `[reg.address for reg in registers]`
(line 162 and line 228), evaluated left to right, first failure raising. -/
def entryAddresses : List Entry → Except PyErr (List Nat)
  | [] => Except.ok []
  | e :: rest =>
    match entryAddress e with
    | Except.error err => Except.error err
    | Except.ok a =>
      match entryAddresses rest with
      | Except.error err => Except.error err
      | Except.ok as => Except.ok (a :: as)

/-- `sorted(...)` on a list of ints. -/
def sortNat (l : List Nat) : List Nat := List.insertionSort (fun a b => a ≤ b) l

/-- Line 162: `sorted(set([reg.address for reg in registers]))`. -/
def requestAddrs (l : List Entry) : Except PyErr (List Nat) :=
  match entryAddresses l with
  | Except.error e => Except.error e
  | Except.ok as => Except.ok (sortNat (dedupFirst as))

/-- The keys of `self._addr_to_regs`, in insertion order: first occurrence
order of the addresses of `_name_to_reg.values()` (lines 123-129). -/
def addrsOf (st : RState) : List Nat :=
  dedupFirst (st.regs.map (fun r => r.address))

/-- `min(addrs)` of a nonempty iterable, given as head and tail. -/
def listMinD (a : Nat) (l : List Nat) : Nat := l.foldl Nat.min a

/-- `max(addrs)` of a nonempty iterable, given as head and tail. -/
def listMaxD (a : Nat) (l : List Nat) : Nat := l.foldl Nat.max a

/-- `_read_raw` (lines 158-168).  `mem` is the device word at each address;
the first component is the `_read_register` call trace as (address, ntimes)
pairs (`none` = the single-word form); the second is the returned
address→raw-word dict (insertion ordered) or the raised exception.  With
`groupread` truthy the burst read spans `[min(addrs), max(addrs)]`
(`min` of an empty sequence raises ValueError); otherwise one discrete read
is issued per address. -/
def readRaw (st : RState) (mem : Nat → Nat) (registers : Option (List Entry))
    (groupread : Bool) : List (Nat × Option Nat) × Except PyErr (List (Nat × Nat)) :=
  match (match registers with
         | none => Except.ok (addrsOf st)
         | some l => requestAddrs l) with
  | Except.error e => ([], Except.error e)
  | Except.ok addrs =>
    if groupread then
      match addrs with
      | [] => ([], Except.error PyErr.valueError)
      | a :: rest =>
        let minaddr := listMinD a rest
        let n := listMaxD a rest - minaddr + 1
        ([(minaddr, some n)],
         Except.ok ((List.range n).map (fun i => (minaddr + i, mem (minaddr + i)))))
    else
      (addrs.map (fun a => (a, none)), Except.ok (addrs.map (fun a => (a, mem a))))

/-- Python truthiness of the `writeable` attribute: `None` and `False` are
falsy, `True` is truthy. -/
def pyTruthy : Option Bool → Bool
  | some b => b
  | none => false

def entryIsPlainNamed (n : String) : Entry → Bool
  | Entry.plain n' _ => n' == n
  | Entry.multi _ => false

/-- The membership test `regv not in regs_to_check` (line 217): `none` means
check everything; a `MultiRegisterValue` entry never equals a plain field. -/
def memberCheck (regsToCheck : Option (List Entry)) (r : RegisterValue) : Bool :=
  match regsToCheck with
  | none => true
  | some l => l.any (entryIsPlainNamed r.name)

/-- Line 219 right-hand side: `(val & regv.bitmask) >> regv.offset`. -/
def decodeVal (val : Nat) (r : RegisterValue) : Nat :=
  (val &&& r.bitmask) >>> r.offset

/-- Line 219: the assignment `regv.value = decoded` goes through the `value`
setter.  The decoded value is always `< 2 ^ nbits` (`decodeVal_lt` below), so
the ValueError branch of the setter is unreachable; the fallback returns the
field unchanged. -/
def applyDecode (val : Nat) (r : RegisterValue) : RegisterValue :=
  match r.setValue (decodeVal val r) with
  | Except.ok r' => r'
  | Except.error _ => r

/-- `_update_state_by_register` (lines 208-219).  The dict access
`self._addr_to_regs[addr]` raises KeyError when no field is registered at
`addr`.  Otherwise the loop assigns every field at `addr` that passes the
`skip_writeable` and `regs_to_check` filters its decoded value; the
assignments touch distinct field objects, so the offset-ordered iteration is
rendered as a single pass over the owned field list. -/
def updateStateByRegister (st : RState) (addr : Nat) (val : Nat)
    (skipWriteable : Bool) (regsToCheck : Option (List Entry)) :
    RState × Option PyErr :=
  if st.regs.all (fun r => r.address != addr) then
    (st, some PyErr.keyError)
  else
    ({ st with
        regs := st.regs.map (fun regv =>
          if regv.address == addr
              && !(skipWriteable && pyTruthy regv.writeable)
              && memberCheck regsToCheck regv then
            applyDecode val regv
          else regv) },
     none)

/-- The decode loop of `read_state` (lines 204-205): iterate the fetched
address→word pairs in dict insertion order; a raised KeyError aborts the
loop but the mutations already made persist. -/
def decodeFold (st : RState) (raw : List (Nat × Nat))
    (regsToCheck : Option (List Entry)) : RState × Option PyErr :=
  match raw with
  | [] => (st, none)
  | (addr, val) :: rest =>
    match updateStateByRegister st addr val false regsToCheck with
    | (st', none) => decodeFold st' rest regsToCheck
    | (st', some e) => (st', some e)

/-- Outcome of an embedded `read_state` call: the (possibly partially) mutated
state, the `_read_register` call trace, and either the returned raw dict or
the raised exception. -/
structure RunResult where
  state : RState
  reads : List (Nat × Option Nat)
  raw : Except PyErr (List (Nat × Nat))
deriving DecidableEq, Repr

/-- Lines 184-192: the composite-expansion preamble of `read_state`.
`mr_idxs` collects the indices `i` with `isinstance(i, MultiRegisterValue)` —
but `i` is the enumeration index, an int, so the test is always false,
`mr_idxs` is always empty and no composite is ever expanded.  The
`set(registers)` conversion only deduplicates, and every later use of
`registers` (the address comprehension, which is deduplicated again, and the
membership tests) is insensitive to duplicates and order, so the whole
preamble is the identity. -/
def expandMultiregs (registers : Option (List Entry)) : Option (List Entry) :=
  registers

/-- `read_state` with `groupread` False or True (lines 184-206 without the
`== 'multi'` branch): preamble, `_read_raw`, then the decode loop.  Line 203:
`r2c = registers if update_all else None` — note the inversion relative to
the docstring (lines 179-181), which promises that `update_all=True` updates
everything that was read. -/
def readStateFlat (st : RState) (mem : Nat → Nat) (registers : Option (List Entry))
    (groupread : Bool) (updateAll : Bool) : RunResult :=
  let registers := expandMultiregs registers
  let tr := readRaw st mem registers groupread
  match tr.2 with
  | Except.error e => ⟨st, tr.1, Except.error e⟩
  | Except.ok raw =>
    let r2c := if updateAll then registers else none
    match decodeFold st raw r2c with
    | (st', none) => ⟨st', tr.1, Except.ok raw⟩
    | (st', some e) => ⟨st', tr.1, Except.error e⟩

/-- `d.update(d2)` on insertion-ordered dicts. -/
def dictUpdate {κ α : Type} [DecidableEq κ] (d d2 : List (κ × α)) : List (κ × α) :=
  d2.foldl (fun acc p => dictInsert acc p.1 p.2) d

/-- The name of a plain field keeps denoting the same owned object, so the
live constituents of a composite are recovered from the current state by
name. -/
def lookupName (regs : List RegisterValue) (n : String) : Option RegisterValue :=
  regs.find? (fun r => r.name == n)

/-- The `groupread == 'multi'` loop of `read_state` (lines 197-200): for every
composite of `self._name_to_multireg`, filter its constituents by membership
in the requested set — `reg in registers` raises TypeError when `registers`
is None — and re-enter `read_state` with `groupread=True` on that sublist
(which reduces to the flat path), merging the returned raw dicts.  A
constituent name that dangles (impossible after construction) is silently
dropped by the model. -/
def multiLoop (mem : Nat → Nat) (updateAll : Bool) (registers : Option (List Entry)) :
    RState → List (Nat × Option Nat) → List (Nat × Nat) →
    List (String × List String) → RunResult
  | st, tr, raw, [] => ⟨st, tr, Except.ok raw⟩
  | st, tr, raw, (_, constituents) :: rest =>
    match registers with
    | none => ⟨st, tr, Except.error PyErr.typeError⟩
    | some entries =>
      let regsToUp := (constituents.filter (fun n => entries.any (entryIsPlainNamed n))).filterMap
        (fun n => (lookupName st.regs n).map (fun f => Entry.plain n f.address))
      let r := readStateFlat st mem (some regsToUp) true updateAll
      match r.raw with
      | Except.error e => ⟨r.state, tr ++ r.reads, Except.error e⟩
      | Except.ok raw2 =>
        multiLoop mem updateAll registers r.state (tr ++ r.reads) (dictUpdate raw raw2) rest

/-- The `groupread` argument of `read_state`: `'multi'` (the default), `True`
or `False`. -/
inductive Groupread where
  | multi
  | gtrue
  | gfalse
deriving DecidableEq, Repr

/-- `read_state` (lines 170-206).  The `groupread == 'multi'` branch first
re-enters itself with `groupread=False`, then runs the per-composite burst
loop; other truthy or falsy values take the flat path. -/
def readState (st : RState) (mem : Nat → Nat) (registers : Option (List Entry))
    (groupread : Groupread) (updateAll : Bool) : RunResult :=
  match groupread with
  | Groupread.gfalse => readStateFlat st mem registers false updateAll
  | Groupread.gtrue => readStateFlat st mem registers true updateAll
  | Groupread.multi =>
    let registers := expandMultiregs registers
    let r1 := readStateFlat st mem registers false updateAll
    match r1.raw with
    | Except.error _ => r1
    | Except.ok raw1 => multiLoop mem updateAll registers r1.state r1.reads raw1 st.multiregs

/-! ### `write_state` -/

/-- Outcome of an embedded `write_state` call: the mutated state, the
`_write_register` trace, the `_read_register` trace, and the raised
exception if any. -/
structure WriteResult where
  state : RState
  writes : List (Nat × Int)
  reads : List (Nat × Option Nat)
  err : Option PyErr
deriving DecidableEq, Repr

/-- The per-address composition loop of `write_state` (lines 232-248),
iterating the offset-sorted fields at `addr`: skip unset fields; a field
with `writeable=None` sets `read_back` and is composed; `writeable=False`
is skipped; compose by clearing the bitmask inside the word
(`newval &= ~bitmask & (2**register_size - 1)`) then, for a nonzero value,
OR-ing in `value << offset`.  This loop is only reached with
`only_update=False` (see `writeState`), so the guard on line 247 is true and
a `_write_register` call is issued after every composed field. -/
def writeFieldsLoop (registerSize : Nat) (addr : Nat) :
    Int → Bool → List (Nat × Int) → List RegisterValue → Int × Bool × List (Nat × Int)
  | newval, readBack, writes, [] => (newval, readBack, writes)
  | newval, readBack, writes, regv :: rest =>
    match regv.value with
    | none => writeFieldsLoop registerSize addr newval readBack writes rest
    | some v =>
      let readBack := readBack || regv.writeable == none
      if regv.writeable == some false then
        writeFieldsLoop registerSize addr newval readBack writes rest
      else
        let newval := pyAnd newval (pyAnd (pyNot (regv.bitmask : Int)) ((2 : Int) ^ registerSize - 1))
        let newval := if v ≠ 0 then pyOr newval (pyShl v regv.offset) else newval
        writeFieldsLoop registerSize addr newval readBack (writes ++ [(addr, newval)]) rest

/-- The per-address loop of `write_state` (lines 231-251) in the
`only_update=False` path: compose from a zero baseline, then, when
`read_back` was set, issue a `_read_register` and re-decode the
non-writeable fields at that address.  `self._addr_to_regs[addr]` raises
KeyError for an unmapped address. -/
def writeAddrsLoop (mem : Nat → Nat) :
    RState → List (Nat × Int) → List (Nat × Option Nat) → List Nat → WriteResult
  | st, writes, reads, [] => ⟨st, writes, reads, none⟩
  | st, writes, reads, addr :: rest =>
    if st.regs.all (fun r => r.address != addr) then
      ⟨st, writes, reads, some PyErr.keyError⟩
    else
      let step := writeFieldsLoop st.register_size addr 0 false writes (groupAt st.regs addr)
      if step.2.1 then
        match updateStateByRegister st addr (mem addr) true none with
        | (st', none) => writeAddrsLoop mem st' step.2.2 (reads ++ [(addr, none)]) rest
        | (st', some e) => ⟨st', step.2.2, reads ++ [(addr, none)], some e⟩
      else
        writeAddrsLoop mem st step.2.2 reads rest

/-- `write_state` (lines 221-251).  With `only_update=True` the source calls
`self._read_raw()` (line 224) with no arguments, but `_read_raw` (line 158)
declares the required positional parameters `registers` and `groupread`, so
Python raises TypeError before any transport traffic or state change.  With
`only_update=False` the raw baseline stays `None`, the per-address words are
composed from zero, and the guard on line 247 short-circuits to issuing a
write after every composed field.  `mem` gives the device response to reads
(no path here reads an address after writing it). -/
def writeState (st : RState) (mem : Nat → Nat) (registers : Option (List Entry))
    (onlyUpdate : Bool) : WriteResult :=
  if onlyUpdate then ⟨st, [], [], some PyErr.typeError⟩
  else
    match (match registers with
           | none => Except.ok (addrsOf st)
           | some l => entryAddresses l) with
    | Except.error e => ⟨st, [], [], some e⟩
    | Except.ok addrs => writeAddrsLoop mem st [] [] addrs

/-! ### Concrete fixtures -/

/-- A 4-bit field in the low nibble of address 0. -/
def fieldA : RegisterValue := ⟨"a", 0, 0, 4, some true, none⟩

/-- A 4-bit field in the high nibble of address 0. -/
def fieldB : RegisterValue := ⟨"b", 0, 4, 4, some true, none⟩

/-- A register file with the two nibble fields of address 0. -/
def stateAB : RState := ⟨8, [fieldA, fieldB], []⟩

/-- A device whose every word reads as 0xAB. -/
def mem0xAB : Nat → Nat := fun _ => 0xAB

/-- A register file with one plain field and one composite over it. -/
def stateM : RState := ⟨8, [fieldA], [("M", ["a"])]⟩

/-- Fields at addresses 0 and 2 with no field at address 1. -/
def fieldF0 : RegisterValue := ⟨"f0", 0, 0, 4, none, none⟩

def fieldF2 : RegisterValue := ⟨"f2", 2, 0, 4, none, none⟩

/-- A register file whose mapped addresses 0 and 2 leave a gap at 1. -/
def stateGap : RState := ⟨8, [fieldF0, fieldF2], []⟩

/-- `fieldA` holding the value 1. -/
def fieldA1 : RegisterValue := { fieldA with value := some 1 }

/-- `fieldB` holding the value 2. -/
def fieldB2 : RegisterValue := { fieldB with value := some 2 }

/-- A register file with both nibble fields of address 0 holding values. -/
def stateW : RState := ⟨8, [fieldA1, fieldB2], []⟩

/-- A 1-bit field, value unset. -/
def fieldW1 : RegisterValue := ⟨"w", 0, 0, 1, none, none⟩

/-! ### Claim theorems -/

/-- C1.  The claim says `write_state(only_update=True)` first reads the current
raw word per targeted address and composes from that baseline.  The code
instead raises TypeError at once: line 224 calls `self._read_raw()` with no
arguments while `_read_raw` (line 158) requires `registers` and `groupread`.
So for every state, device and request, no read and no write is issued, no
field changes, and the call fails. -/
theorem writeState_onlyUpdate_raises_typeError (st : RState) (mem : Nat → Nat)
    (registers : Option (List Entry)) :
    writeState st mem registers true = ⟨st, [], [], some PyErr.typeError⟩ := rfl

/-- C2.  The claim (and the docstring, lines 179-181) says `update_all=True`
updates every field at a fetched address and `update_all=False` only the
requested ones.  Line 203 (`r2c = registers if update_all else None`) is
inverted: requesting only field `a` at an address also holding `b`, raw word
0xAB, with `update_all=True` decodes `a` to 0xB but leaves `b` unset, while
`update_all=False` decodes both fields. -/
theorem readState_update_all_inverted :
    (readState stateAB mem0xAB (some [Entry.plain "a" 0]) Groupread.gfalse true).state.regs
      = [{ fieldA with value := some 0xB }, fieldB]
    ∧ (readState stateAB mem0xAB (some [Entry.plain "a" 0]) Groupread.gfalse false).state.regs
      = [{ fieldA with value := some 0xB }, { fieldB with value := some 0xA }] := by
  exact ⟨by decide, by decide⟩

/-- C3.  The claim says `groupread='multi'` and `groupread=False` succeed on
the same inputs (including the default `fields=None`) with identical decoded
caches.  On a file with a composite and the default `registers=None`,
`groupread=False` succeeds and decodes `a`, but `groupread='multi'` raises
TypeError at line 198 (`reg in registers` with `registers` None) after the
inner `groupread=False` pass already ran. -/
theorem readState_multi_vs_false_default :
    (readState stateM mem0xAB none Groupread.multi true).raw = Except.error PyErr.typeError
    ∧ (readState stateM mem0xAB none Groupread.gfalse true).raw = Except.ok [(0, 0xAB)]
    ∧ (readState stateM mem0xAB none Groupread.gfalse true).state.regs
        = [{ fieldA with value := some 0xB }] := by
  exact ⟨by decide, by decide, by decide⟩

/-- C4.  The claim says a requested `MultiRegisterValue` is replaced by its
constituents before address resolution.  Because line 188 tests
`isinstance(i, MultiRegisterValue)` on the enumeration index, no expansion
ever happens; the composite survives to the address comprehension (line 162)
and `reg.address` raises AttributeError, before any transport read and with
the state unchanged. -/
theorem readState_composite_request_attrError :
    readState stateM mem0xAB (some [Entry.multi "M"]) Groupread.gfalse true
      = ⟨stateM, [], Except.error PyErr.attrError⟩ := by decide

/-- C5.  The claim says at most one transport write is issued per address
(after full composition, and only on a change when `only_update=True`).
With `only_update=False` the write on line 248 sits inside the per-field
loop: for two valued fields at address 0 the code issues two writes — first
the half-composed word 0x01, then 0x21.  (With `only_update=True` the call
raises TypeError instead, see C1, so the idempotence scenario cannot even
run.) -/
theorem writeState_multiple_writes_per_address :
    (writeState stateW mem0xAB none false).writes = [(0, 1), (0, 0x21)]
    ∧ (writeState stateW mem0xAB none false).err = none
    ∧ (writeState stateW mem0xAB none true).err = some PyErr.typeError := by
  exact ⟨by decide, by decide, by decide⟩

/-- C6 counterexample.  The claim says assigning `v < 0` fails with
RangeError.  The setter (lines 62-67) only checks `val >= 2**self.nbits`,
so assigning -1 to a 1-bit field succeeds and caches -1. -/
theorem setValue_negative_accepted :
    fieldW1.setValue (-1) = Except.ok { fieldW1 with value := some (-1) } := by decide

/-- C6 amended.  Assignment fails with ValueError exactly when
`v ≥ 2 ^ width` — raising before `_value` is assigned, so the cache is
untouched — and succeeds for every `v < 2 ^ width` (in particular all of
`[0, 2^width - 1]`), after which reading `value` returns `v` unchanged. -/
theorem setValue_range_behavior (r : RegisterValue) (v : Int) :
    ((2 : Int) ^ r.nbits ≤ v → r.setValue v = Except.error PyErr.valueError)
    ∧ (v < (2 : Int) ^ r.nbits →
        r.setValue v = Except.ok { r with value := some v }
        ∧ ({ r with value := some v } : RegisterValue).value = some v) := by
  constructor
  · intro h
    simp [RegisterValue.setValue, ge_iff_le, h]
  · intro h
    refine ⟨?_, rfl⟩
    simp [RegisterValue.setValue, ge_iff_le, not_le.mpr h]

/-- Witness for `setValue_range_behavior` on the 1-bit field: 2 = 2^1 is
rejected, 1 round-trips. -/
theorem setValue_range_behavior_witness :
    fieldW1.setValue 2 = Except.error PyErr.valueError
    ∧ fieldW1.setValue 1 = Except.ok { fieldW1 with value := some 1 } := by
  exact ⟨(setValue_range_behavior fieldW1 2).1 (by decide),
         ((setValue_range_behavior fieldW1 1).2 (by decide)).1⟩

/-! ### C8: composite assembly -/

theorem pyShl_cast (n k : Nat) : pyShl (n : Int) k = ((n * 2 ^ k : Nat) : Int) := by
  simp [pyShl]

theorem pyOr_cast (a b : Nat) : pyOr (a : Int) (b : Int) = ((a ||| b : Nat) : Int) := rfl

/-- Disjoint or is addition: the low part lives under `2 ^ k`. -/
theorem lor_mul_pow_eq_add {a : Nat} (b k : Nat) (ha : a < 2 ^ k) :
    a ||| b * 2 ^ k = a + b * 2 ^ k := by
  have h := Nat.mul_add_lt_is_or ha b
  calc a ||| b * 2 ^ k = b * 2 ^ k ||| a := Nat.lor_comm _ _
    _ = 2 ^ k * b ||| a := by rw [Nat.mul_comm]
    _ = 2 ^ k * b + a := h.symm
    _ = a + b * 2 ^ k := by ring

/-- The generalized accumulator invariant of the `MultiRegisterValue.value`
loop: starting from a partial word `a` occupying `k` bits, the loop returns
the partial word plus the remaining concatenation shifted by `k`. -/
theorem multiValueGo_spec (rs : List RegisterValue) (ps : List (Int × Nat))
    (h : List.Forall₂ (fun (r : RegisterValue) (p : Int × Nat) =>
        r.value = some p.1 ∧ r.nbits = p.2 ∧ 0 ≤ p.1 ∧ p.1 < 2 ^ p.2) rs ps) :
    ∀ (a k : Nat), a < 2 ^ k →
      multiValueGo (a : Int) k rs
        = Except.ok ((a : Int) + specConcatLSB ps * 2 ^ k) := by
  induction h with
  | nil =>
    intro a k _
    simp [multiValueGo, specConcatLSB]
  | @cons r p rs' ps' hp hrest ih =>
    intro a k ha
    obtain ⟨hv, hw, hpos, hlt⟩ := hp
    obtain ⟨n, hn⟩ := Int.eq_ofNat_of_zero_le hpos
    have hnlt : n < 2 ^ p.2 := by
      have h2 : (n : Int) < ((2 ^ p.2 : Nat) : Int) := by push_cast; rw [← hn]; exact_mod_cast hlt
      exact_mod_cast h2
    have hstep : a + n * 2 ^ k < 2 ^ (k + p.2) := by
      calc a + n * 2 ^ k < 2 ^ k + n * 2 ^ k := by omega
        _ = (n + 1) * 2 ^ k := by ring
        _ ≤ 2 ^ p.2 * 2 ^ k := Nat.mul_le_mul_right _ (by omega)
        _ = 2 ^ (k + p.2) := by rw [← pow_add]; ring_nf
    have hrec := ih (a + n * 2 ^ k) (k + p.2) hstep
    simp only [multiValueGo, hv, hn]
    rw [pyShl_cast, pyOr_cast, lor_mul_pow_eq_add n k ha, hw, hrec]
    simp only [specConcatLSB, hn]
    congr 1
    push_cast
    ring

/-- C8.  `MultiRegisterValue.value` computes exactly the LSB-first
concatenation of its constituents, each shifted left by the cumulative width
of the preceding ones (`specConcatLSB`), whenever every constituent holds a
value within its width. -/
theorem multiValue_eq_specConcatLSB (mr : MultiRegisterValue) (ps : List (Int × Nat))
    (h : List.Forall₂ (fun (r : RegisterValue) (p : Int × Nat) =>
        r.value = some p.1 ∧ r.nbits = p.2 ∧ 0 ≤ p.1 ∧ p.1 < 2 ^ p.2) mr.registers ps) :
    mr.value = Except.ok (specConcatLSB ps) := by
  have h0 := multiValueGo_spec mr.registers ps h 0 0 (by decide)
  simpa [MultiRegisterValue.value] using h0

/-- The low byte of the claimed example: width 8, value 0x34, least
significant. -/
def fieldLow : RegisterValue := ⟨"lo", 0, 0, 8, none, some 0x34⟩

/-- The high byte of the claimed example: width 8, value 0x12. -/
def fieldHigh : RegisterValue := ⟨"hi", 1, 0, 8, none, some 0x12⟩

/-- Witness for `multiValue_eq_specConcatLSB`: the claimed instance — fields
of width 8 with values 0x34 (least significant) and 0x12 assemble to
0x1234. -/
theorem multiValue_eq_specConcatLSB_witness :
    (MultiRegisterValue.mk "c" [fieldLow, fieldHigh]).value = Except.ok 0x1234 := by
  have h := multiValue_eq_specConcatLSB (MultiRegisterValue.mk "c" [fieldLow, fieldHigh])
    [((0x34 : Int), 8), ((0x12 : Int), 8)]
    (List.Forall₂.cons (by refine ⟨rfl, rfl, by decide, by decide⟩)
      (List.Forall₂.cons (by refine ⟨rfl, rfl, by decide, by decide⟩) List.Forall₂.nil))
  rw [h]
  decide

/-! ### C9: re-linking failure on a dangling constituent -/

theorem dictGet_dictInsert {κ α : Type} [DecidableEq κ]
    (d : List (κ × α)) (k k' : κ) (v : α) :
    dictGet (dictInsert d k v) k' = if k' = k then some v else dictGet d k' := by
  induction d with
  | nil =>
    by_cases h : k' = k
    · subst h
      simp [dictInsert, dictGet]
    · simp [dictInsert, dictGet, h, Ne.symm h]
  | cons p rest ih =>
    by_cases h1 : p.1 = k
    · subst h1
      by_cases h2 : p.1 = k'
      · subst h2
        simp [dictInsert, dictGet]
      · simp [dictInsert, dictGet, h2, Ne.symm h2]
    · by_cases h2 : p.1 = k'
      · subst h2
        simp [dictInsert, dictGet, h1, Ne.symm h1]
      · simp [dictInsert, dictGet, h1, h2, ih]

theorem dictGet_mem {κ α : Type} [DecidableEq κ]
    (d : List (κ × α)) (k : κ) (v : α) (h : dictGet d k = some v) : (k, v) ∈ d := by
  induction d with
  | nil => simp [dictGet] at h
  | cons p rest ih =>
    by_cases h1 : p.1 = k
    · simp only [dictGet, h1, if_pos rfl] at h
      cases h
      exact h1 ▸ List.mem_cons_self _ _
    · simp only [dictGet, h1, if_false] at h
      exact List.mem_cons_of_mem _ (ih h)

/-- The only exception `relinkRegs` can raise is the KeyError of the name
lookup. -/
theorem relinkRegs_error_shape (d : List (String × RegisterValue)) (rs : List RegisterValue)
    (e : PyErr) (h : relinkRegs d rs = Except.error e) : e = PyErr.keyError := by
  induction rs with
  | nil => simp [relinkRegs] at h
  | cons r rest ih =>
    simp only [relinkRegs] at h
    cases hd : dictGet d r.name with
    | none => rw [hd] at h; cases h; rfl
    | some f =>
      rw [hd] at h
      cases hrec : relinkRegs d rest with
      | error e' => rw [hrec] at h; cases h; exact ih hrec
      | ok fs => rw [hrec] at h; cases h

/-- A constituent whose name is missing from the owned-field dict makes the
re-link of its composite raise KeyError. -/
theorem relinkRegs_miss (d : List (String × RegisterValue)) (rs : List RegisterValue)
    (r : RegisterValue) (hr : r ∈ rs) (hmiss : dictGet d r.name = none) :
    relinkRegs d rs = Except.error PyErr.keyError := by
  induction rs with
  | nil => cases hr
  | cons r0 rest ih =>
    rcases List.mem_cons.mp hr with h | h
    · subst h
      simp [relinkRegs, hmiss]
    · simp only [relinkRegs]
      cases hd : dictGet d r0.name with
      | none => rfl
      | some f => rw [ih h]

theorem relinkOne_miss (d : List (String × RegisterValue)) (mr : MultiRegisterValue)
    (r : RegisterValue) (hr : r ∈ mr.registers) (hmiss : dictGet d r.name = none) :
    relinkOne d mr = Except.error PyErr.keyError := by
  simp [relinkOne, relinkRegs_miss d mr.registers r hr hmiss]

theorem relinkOne_error_shape (d : List (String × RegisterValue)) (mr : MultiRegisterValue)
    (e : PyErr) (h : relinkOne d mr = Except.error e) : e = PyErr.keyError := by
  simp only [relinkOne] at h
  cases hd : relinkRegs d mr.registers with
  | error e' => rw [hd] at h; cases h; exact relinkRegs_error_shape d mr.registers e hd
  | ok fs => rw [hd] at h; cases h

/-- If any composite of the dict fails its re-link, the whole re-linking loop
raises KeyError (every possible raise in the loop is a KeyError). -/
theorem relinkAll_miss (d : List (String × RegisterValue))
    (multis : List (String × MultiRegisterValue)) (k : String) (mr : MultiRegisterValue)
    (hmem : (k, mr) ∈ multis) (h : relinkOne d mr = Except.error PyErr.keyError) :
    relinkAll d multis = Except.error PyErr.keyError := by
  induction multis with
  | nil => cases hmem
  | cons p rest ih =>
    rcases List.mem_cons.mp hmem with hp | hp
    · subst hp
      simp [relinkAll, h]
    · simp only [relinkAll]
      cases h0 : relinkOne d p.2 with
      | error e => rw [relinkOne_error_shape d p.2 e h0]
      | ok mr' => rw [ih hp]

/-- The names of the `MultiRegisterValue` templates, in order. -/
def multiNames (template : List TemplateEntry) : List String :=
  template.filterMap (fun e =>
    match e with
    | TemplateEntry.plain _ => none
    | TemplateEntry.multi mr => some mr.name)

theorem buildNameToReg_go_skip (l : List TemplateEntry)
    (d : List (String × RegisterValue)) (nm : String)
    (h : ∀ p, TemplateEntry.plain p ∈ l → p.name ≠ nm) :
    dictGet (l.foldl (fun d e =>
      match e with
      | TemplateEntry.plain r => dictInsert d r.name r
      | TemplateEntry.multi _ => d) d) nm = dictGet d nm := by
  induction l generalizing d with
  | nil => rfl
  | cons e rest ih =>
    cases e with
    | plain r =>
      have hne : r.name ≠ nm := h r (List.mem_cons_self _ _)
      rw [List.foldl_cons]
      rw [ih _ (fun p hp => h p (List.mem_cons_of_mem _ hp))]
      rw [dictGet_dictInsert]
      rw [if_neg (Ne.symm hne)]
    | multi mr =>
      rw [List.foldl_cons]
      exact ih _ (fun p hp => h p (List.mem_cons_of_mem _ hp))

/-- A name that matches no plain field template is absent from the owned-field
dict. -/
theorem dictGet_buildNameToReg_none (template : List TemplateEntry) (nm : String)
    (h : ∀ p, TemplateEntry.plain p ∈ template → p.name ≠ nm) :
    dictGet (buildNameToReg template) nm = none := by
  rw [buildNameToReg, buildNameToReg_go_skip template [] nm h]
  rfl

theorem buildNameToMultireg_go_skip (l : List TemplateEntry)
    (d : List (String × MultiRegisterValue)) (nm : String)
    (h : nm ∉ multiNames l) :
    dictGet (l.foldl (fun d e =>
      match e with
      | TemplateEntry.plain _ => d
      | TemplateEntry.multi mr => dictInsert d mr.name mr) d) nm = dictGet d nm := by
  induction l generalizing d with
  | nil => rfl
  | cons e rest ih
  => cases e with
    | plain r =>
      rw [List.foldl_cons]
      exact ih _ (by simpa [multiNames] using h)
    | multi mr =>
      have hne : nm ≠ mr.name := by
        intro hx
        exact h (by simp [multiNames, hx])
      have hrest : nm ∉ multiNames rest := by
        intro hx
        exact h (by simp [multiNames]; right; simpa [multiNames] using hx)
      rw [List.foldl_cons, ih _ hrest, dictGet_dictInsert]
      simp [hne]

theorem buildNameToMultireg_go_mem (l : List TemplateEntry)
    (d : List (String × MultiRegisterValue)) (mr : MultiRegisterValue)
    (hmem : TemplateEntry.multi mr ∈ l) (hnodup : (multiNames l).Nodup) :
    dictGet (l.foldl (fun d e =>
      match e with
      | TemplateEntry.plain _ => d
      | TemplateEntry.multi mr => dictInsert d mr.name mr) d) mr.name = some mr := by
  induction l generalizing d with
  | nil => cases hmem
  | cons e rest ih =>
    rcases List.mem_cons.mp hmem with he | he
    · subst he
      have hnotin : mr.name ∉ multiNames rest := by
        have := hnodup
        simp only [multiNames, List.filterMap_cons] at this
        exact (List.nodup_cons.mp this).1
      rw [List.foldl_cons, buildNameToMultireg_go_skip rest _ mr.name hnotin,
        dictGet_dictInsert]
      simp
    · cases e with
      | plain r =>
        rw [List.foldl_cons]
        exact ih _ he (by simpa [multiNames] using hnodup)
      | multi mr0 =>
        rw [List.foldl_cons]
        refine ih _ he ?_
        have h2 := hnodup
        simp only [multiNames, List.filterMap_cons] at h2
        exact (List.nodup_cons.mp h2).2

/-- C9.  A `MultiRegisterValue` template whose constituent name matches no
plain field template makes construction fail with KeyError (a subclass of
LookupError) during re-linking (line 121), instead of silently aliasing the
caller-supplied object.  The composite names are assumed distinct (names are
dict keys — the documented unique-key discipline). -/
theorem updateRegisters_dangling_constituent_keyError
    (size : Nat) (template : List TemplateEntry) (mr : MultiRegisterValue)
    (r : RegisterValue)
    (hmr : TemplateEntry.multi mr ∈ template) (hr : r ∈ mr.registers)
    (hnodup : (multiNames template).Nodup)
    (hmiss : ∀ p, TemplateEntry.plain p ∈ template → p.name ≠ r.name) :
    updateRegisters size template = Except.error PyErr.keyError := by
  have hd : dictGet (buildNameToReg template) r.name = none :=
    dictGet_buildNameToReg_none template r.name hmiss
  have hmm : dictGet (buildNameToMultireg template) mr.name = some mr :=
    buildNameToMultireg_go_mem template [] mr hmr hnodup
  have hmem : (mr.name, mr) ∈ buildNameToMultireg template :=
    dictGet_mem _ _ _ hmm
  have hone : relinkOne (buildNameToReg template) mr = Except.error PyErr.keyError :=
    relinkOne_miss _ mr r hr hd
  have hall := relinkAll_miss (buildNameToReg template) (buildNameToMultireg template)
    mr.name mr hmem hone
  simp [updateRegisters, hall]

/-- A constituent name matching no plain field. -/
def fieldGhost : RegisterValue := ⟨"ghost", 0, 0, 1, none, none⟩

/-- Witness for `updateRegisters_dangling_constituent_keyError`: one plain
field `a` and a composite referencing the unknown name `ghost`. -/
theorem updateRegisters_dangling_constituent_keyError_witness :
    updateRegisters 8
      [TemplateEntry.plain fieldA, TemplateEntry.multi ⟨"M", [fieldGhost]⟩]
      = Except.error PyErr.keyError := by
  refine updateRegisters_dangling_constituent_keyError 8 _ ⟨"M", [fieldGhost]⟩ fieldGhost
    (by decide) (by decide) (by decide) ?_
  intro p hp
  rcases List.mem_cons.mp hp with h | h
  · cases h
    decide
  · rcases List.mem_cons.mp h with h2 | h2
    · cases h2
    · cases h2

/-! ### C7: construction invariant -/

/-- Membership in the first-occurrence deduplication. -/
theorem mem_dedupFo (a : Nat) (l : List Nat) :
    ∀ seen : List Nat, a ∈ l → a ∉ seen → a ∈ dedupFo seen l := by
  induction l with
  | nil => intro seen h _; cases h
  | cons b rest ih =>
    intro seen hmem hseen
    rcases List.mem_cons.mp hmem with h | h
    · subst h
      by_cases hb : a ∈ seen
      · exact absurd hb hseen
      · simp [dedupFo, hb]
    · by_cases hb : b ∈ seen
      · simp only [dedupFo, if_pos hb]
        exact ih seen h hseen
      · simp only [dedupFo, if_neg hb]
        by_cases hab : a = b
        · exact hab ▸ List.mem_cons_self _ _
        · exact List.mem_cons_of_mem _ (ih (b :: seen) h (by
            intro hx
            rcases List.mem_cons.mp hx with h2 | h2
            · exact hab h2
            · exact hseen h2))

theorem mem_dedupFirst (a : Nat) (l : List Nat) (h : a ∈ l) : a ∈ dedupFirst l :=
  mem_dedupFo a l [] h (by simp)

/-- The accumulated or of a list of masks. -/
def orFold (l : List Nat) : Nat := l.foldr (fun x acc => x ||| acc) 0

theorem orFold_perm (l l' : List Nat) (h : l.Perm l') : orFold l = orFold l' := by
  induction h with
  | nil => rfl
  | cons x _ ih => simp only [orFold, List.foldr_cons] at *; rw [ih]
  | swap x y t =>
    simp only [orFold, List.foldr_cons]
    rw [← Nat.lor_assoc, ← Nat.lor_assoc, Nat.lor_comm x y]
  | trans _ _ ih1 ih2 => exact ih1.trans ih2

theorem left_eq_zero_of_lor {u v : Nat} (h : u ||| v = 0) : u = 0 := by
  refine Nat.eq_of_testBit_eq fun i => ?_
  have h2 := congrArg (fun t => Nat.testBit t i) h
  simp only [Nat.testBit_or, Nat.zero_testBit, Bool.or_eq_false_iff] at h2
  simp [h2.1]

theorem land_lor_split {x a b : Nat} (h : x &&& (a ||| b) = 0) :
    x &&& a = 0 ∧ x &&& b = 0 := by
  rw [Nat.and_or_distrib_left] at h
  exact ⟨left_eq_zero_of_lor h, left_eq_zero_of_lor (Nat.lor_comm _ _ ▸ h)⟩

/-- What a successful `bits_set` fold (lines 132-137) guarantees: the returned
word is the or of all masks with the initial accumulator, every mask is
disjoint from the initial accumulator, and the masks are pairwise
disjoint. -/
theorem foldBitsSet_ok (l : List RegisterValue) :
    ∀ acc b : Nat, foldBitsSet acc l = Except.ok b →
      b = orFold (l.map RegisterValue.bitmask) ||| acc
      ∧ (∀ r ∈ l, r.bitmask &&& acc = 0)
      ∧ l.Pairwise (fun f g => f.bitmask &&& g.bitmask = 0) := by
  induction l with
  | nil =>
    intro acc b h
    cases h
    simp [orFold]
  | cons reg rest ih =>
    intro acc b h
    simp only [foldBitsSet] at h
    by_cases hz : reg.bitmask &&& acc ≠ 0
    · rw [if_pos hz] at h
      cases h
    · rw [if_neg hz] at h
      push_neg at hz
      obtain ⟨hb, hall, hpw⟩ := ih (acc ||| reg.bitmask) b h
      refine ⟨?_, ?_, ?_⟩
      · rw [hb]
        simp only [List.map_cons, orFold, List.foldr_cons]
        rw [Nat.lor_comm acc reg.bitmask, ← Nat.lor_assoc,
          Nat.lor_comm (List.foldr (fun x acc => x ||| acc) 0 (rest.map RegisterValue.bitmask)) reg.bitmask]
      · intro r hr
        rcases List.mem_cons.mp hr with h1 | h1
        · exact h1 ▸ hz
        · exact (land_lor_split (hall r h1)).1
      · refine List.Pairwise.cons ?_ hpw
        intro g hg
        have := (land_lor_split (hall g hg)).2
        rw [Nat.land_comm]
        exact this

/-- What a successful per-address validation (lines 131-139) guarantees. -/
theorem validateAddrGroup_ok (size : Nat) (group : List RegisterValue)
    (h : validateAddrGroup size group = Except.ok ()) :
    group.Pairwise (fun f g => f.bitmask &&& g.bitmask = 0)
    ∧ orFold (group.map RegisterValue.bitmask) < 2 ^ size := by
  unfold validateAddrGroup at h
  cases hf : foldBitsSet 0 group with
  | error e => rw [hf] at h; cases h
  | ok bits =>
    rw [hf] at h
    dsimp only at h
    by_cases hb : bits ≥ 2 ^ size
    · rw [if_pos hb] at h
      cases h
    · obtain ⟨he, _, hpw⟩ := foldBitsSet_ok group 0 bits hf
      refine ⟨hpw, ?_⟩
      have hbits : bits = orFold (group.map RegisterValue.bitmask) := by
        rw [he]
        simp
      omega

theorem validateGroups_ok (size : Nat) (regs : List RegisterValue) (l : List Nat)
    (h : validateGroups size regs l = Except.ok ()) :
    ∀ a ∈ l, validateAddrGroup size (groupAt regs a) = Except.ok () := by
  induction l with
  | nil => intro a ha; cases ha
  | cons a0 rest ih =>
    intro a ha
    simp only [validateGroups] at h
    cases hv : validateAddrGroup size (groupAt regs a0) with
    | error e => rw [hv] at h; cases h
    | ok u =>
      rw [hv] at h
      rcases List.mem_cons.mp ha with h1 | h1
      · subst h1
        cases u
        exact hv
      · exact ih h a h1

/-- Per-address pairwise disjointness lifts to global pairwise disjointness of
same-address fields. -/
theorem pairwise_of_groups (regs : List RegisterValue)
    (h : ∀ a, (regs.filter (fun r => r.address == a)).Pairwise
        (fun f g => f.bitmask &&& g.bitmask = 0)) :
    regs.Pairwise (fun f g => f.address = g.address → f.bitmask &&& g.bitmask = 0) := by
  induction regs with
  | nil => exact List.Pairwise.nil
  | cons f t ih =>
    refine List.Pairwise.cons ?_ (ih ?_)
    · intro g hg haddr
      have hf := h f.address
      have hcons : (f :: t).filter (fun r => r.address == f.address)
          = f :: t.filter (fun r => r.address == f.address) := by
        simp [List.filter_cons]
      rw [hcons] at hf
      have hgmem : g ∈ t.filter (fun r => r.address == f.address) := by
        rw [List.mem_filter]
        exact ⟨hg, by simp [haddr]⟩
      exact (List.pairwise_cons.mp hf).1 g hgmem
    · intro a
      have ha := h a
      by_cases hfa : f.address == a
      · have : (f :: t).filter (fun r => r.address == a)
            = f :: t.filter (fun r => r.address == a) := by
          simp [List.filter_cons, hfa]
        rw [this] at ha
        exact (List.pairwise_cons.mp ha).2
      · have : (f :: t).filter (fun r => r.address == a)
            = t.filter (fun r => r.address == a) := by
          simp [List.filter_cons, hfa]
        rw [this] at ha
        exact ha

/-- C7.  If `RegisterState` construction succeeds, then any two distinct
fields sharing an address have disjoint bitmasks, and for every address the
or of the bitmasks of its fields fits in `[0, 2^register_size - 1]`.
Contrapositively, a template with an intersecting or overflowing layout
cannot construct (no `Except.ok` exists for it). -/
theorem updateRegisters_ok_disjoint_masks (size : Nat) (template : List TemplateEntry)
    (st : RState) (h : updateRegisters size template = Except.ok st) :
    st.regs.Pairwise (fun f g => f.address = g.address → f.bitmask &&& g.bitmask = 0)
    ∧ ∀ a, orFold ((st.regs.filter (fun r => r.address == a)).map RegisterValue.bitmask)
        < 2 ^ size := by
  simp only [updateRegisters] at h
  cases hrel : relinkAll (buildNameToReg template) (buildNameToMultireg template) with
  | error e => rw [hrel] at h; cases h
  | ok multis =>
    rw [hrel] at h
    set regsList := (buildNameToReg template).map (fun p => p.2) with hregs
    cases hval : validateGroups size regsList
        (dedupFirst (regsList.map (fun r => r.address))) with
    | error e => rw [hval] at h; cases h
    | ok u =>
      cases u
      rw [hval] at h
      cases h
      have hgroups := validateGroups_ok size regsList _ hval
      have hper : ∀ a, (groupAt regsList a).Perm
          (regsList.filter (fun r => r.address == a)) :=
        fun a => List.perm_insertionSort _ _
      constructor
      · refine pairwise_of_groups regsList fun a => ?_
        by_cases hmem : a ∈ regsList.map (fun r => r.address)
        · have hok := hgroups a (mem_dedupFirst a _ hmem)
          have hpw := (validateAddrGroup_ok size _ hok).1
          exact ((hper a).pairwise_iff
            (fun hxy => Nat.land_comm _ _ ▸ hxy)).mp hpw
        · have : regsList.filter (fun r => r.address == a) = [] := by
            rw [List.filter_eq_nil_iff]
            intro r hr
            simp only [beq_iff_eq]
            intro hx
            exact hmem (List.mem_map.mpr ⟨r, hr, hx⟩)
          rw [this]
          exact List.Pairwise.nil
      · intro a
        by_cases hmem : a ∈ regsList.map (fun r => r.address)
        · have hok := hgroups a (mem_dedupFirst a _ hmem)
          have hlt := (validateAddrGroup_ok size _ hok).2
          have heq : orFold ((groupAt regsList a).map RegisterValue.bitmask)
              = orFold ((regsList.filter (fun r => r.address == a)).map RegisterValue.bitmask) :=
            orFold_perm _ _ ((hper a).map _)
          rw [← heq]
          exact hlt
        · have : regsList.filter (fun r => r.address == a) = [] := by
            rw [List.filter_eq_nil_iff]
            intro r hr
            simp only [beq_iff_eq]
            intro hx
            exact hmem (List.mem_map.mpr ⟨r, hr, hx⟩)
          rw [this]
          simp [orFold]

/-- Witness for `updateRegisters_ok_disjoint_masks`: the two disjoint nibble
fields of address 0 construct successfully and satisfy the invariant. -/
theorem updateRegisters_ok_disjoint_masks_witness :
    (RState.mk 8 [fieldA, fieldB] []).regs.Pairwise
      (fun f g => f.address = g.address → f.bitmask &&& g.bitmask = 0) :=
  (updateRegisters_ok_disjoint_masks 8
    [TemplateEntry.plain fieldA, TemplateEntry.plain fieldB]
    (RState.mk 8 [fieldA, fieldB] []) (by decide)).1

/-! ### C10: burst reads across an unmapped gap address -/

/-- Whether any field is registered at address `a` (that is, whether
`self._addr_to_regs` has the key `a`). -/
def hasField (st : RState) (a : Nat) : Bool :=
  st.regs.any (fun r => r.address == a)

theorem setValue_ok_shape (r : RegisterValue) (v : Int) (r' : RegisterValue)
    (h : r.setValue v = Except.ok r') : r' = { r with value := some v } := by
  unfold RegisterValue.setValue at h
  split at h
  · cases h
  · cases h
    rfl

/-- The decoded value always fits the field, so the setter on line 219 never
raises. -/
theorem decodeVal_lt (val : Nat) (r : RegisterValue) : decodeVal val r < 2 ^ r.nbits := by
  have h1 : val &&& r.bitmask ≤ r.bitmask := Nat.and_le_right
  have h2 : decodeVal val r ≤ r.bitmask >>> r.offset := by
    simp only [decodeVal, Nat.shiftRight_eq_div_pow]
    exact Nat.div_le_div_right h1
  have h3 : r.bitmask >>> r.offset = 2 ^ r.nbits - 1 := by
    simp only [RegisterValue.bitmask, Nat.shiftLeft_eq, Nat.shiftRight_eq_div_pow]
    exact Nat.mul_div_cancel _ (Nat.two_pow_pos _)
  have h4 : 0 < 2 ^ r.nbits := Nat.two_pow_pos _
  omega

theorem applyDecode_eq (val : Nat) (r : RegisterValue) :
    applyDecode val r = { r with value := some ((decodeVal val r : Nat) : Int) } := by
  have hlt : ((decodeVal val r : Nat) : Int) < 2 ^ r.nbits := by
    have := decodeVal_lt val r
    exact_mod_cast this
  unfold applyDecode RegisterValue.setValue
  rw [if_neg (not_le.mpr hlt)]

theorem applyDecode_address (val : Nat) (r : RegisterValue) :
    (applyDecode val r).address = r.address := by
  rw [applyDecode_eq]

/-- With a field registered at `addr`, `_update_state_by_register` succeeds
and performs the filtered decode pass. -/
theorem updateSBR_of_hasField (st : RState) (a val : Nat) (sw : Bool)
    (rc : Option (List Entry)) (h : hasField st a = true) :
    updateStateByRegister st a val sw rc
      = ({ st with regs := st.regs.map (fun regv =>
            if regv.address == a && !(sw && pyTruthy regv.writeable) && memberCheck rc regv
            then applyDecode val regv else regv) }, none) := by
  unfold updateStateByRegister
  have hcond : ¬ (st.regs.all (fun r => r.address != a) = true) := by
    intro hall
    obtain ⟨r, hr, hra⟩ := List.any_eq_true.mp h
    have h2 := List.all_eq_true.mp hall r hr
    simp [bne, hra] at h2
  rw [if_neg hcond]

/-- With no field registered at `addr`, `_update_state_by_register` raises
KeyError and the state is untouched. -/
theorem updateSBR_of_not_hasField (st : RState) (a val : Nat) (sw : Bool)
    (rc : Option (List Entry)) (h : hasField st a = false) :
    updateStateByRegister st a val sw rc = (st, some PyErr.keyError) := by
  unfold updateStateByRegister
  have hcond : st.regs.all (fun r => r.address != a) = true := by
    refine List.all_eq_true.mpr fun r hr => ?_
    have h2 := List.any_eq_false.mp h r hr
    simp [bne, h2]
  rw [if_pos hcond]

theorem hasField_le (stA stB : RState)
    (hpt : ∀ i : Nat, (stA.regs[i]?).map (fun r => r.address)
        = (stB.regs[i]?).map (fun r => r.address))
    (a : Nat) (h : hasField stA a = true) : hasField stB a = true := by
  simp only [hasField, List.any_eq_true] at h ⊢
  obtain ⟨r, hr, hra⟩ := h
  obtain ⟨i, hi⟩ := List.mem_iff_getElem?.mp hr
  have h2 := hpt i
  rw [hi] at h2
  cases h0 : stB.regs[i]? with
  | none =>
    rw [h0] at h2
    simp at h2
  | some r0 =>
    rw [h0] at h2
    simp only [Option.map_some'] at h2
    have h3 : r.address = r0.address := Option.some.inj h2
    refine ⟨r0, List.getElem?_mem h0, ?_⟩
    rw [beq_iff_eq] at hra ⊢
    omega

/-- `hasField` only depends on the pointwise addresses of the field list. -/
theorem hasField_congr (st0 st : RState)
    (hpt : ∀ i : Nat, (st.regs[i]?).map (fun r => r.address)
        = (st0.regs[i]?).map (fun r => r.address)) (a : Nat) :
    hasField st a = hasField st0 a := by
  cases h : hasField st0 a with
  | true => exact hasField_le st0 st (fun i => (hpt i).symm) a h
  | false =>
    cases h2 : hasField st a with
    | false => rfl
    | true => exact absurd (hasField_le st st0 hpt a h2) (by simp [h])

/-- One arm of the decode pass preserves field addresses. -/
theorem updMap_address (val : Nat) (rc : Option (List Entry)) (sw : Bool) (p : Nat)
    (r' : RegisterValue) :
    (if r'.address == p && !(sw && pyTruthy r'.writeable) && memberCheck rc r'
     then applyDecode val r' else r').address = r'.address := by
  split
  · exact applyDecode_address _ _
  · rfl

/-- One arm of the decode pass leaves fields at other addresses alone. -/
theorem updMap_id_of_ne (val : Nat) (rc : Option (List Entry)) (sw : Bool) (p : Nat)
    (r' : RegisterValue) (h : r'.address ≠ p) :
    (if r'.address == p && !(sw && pyTruthy r'.writeable) && memberCheck rc r'
     then applyDecode val r' else r') = r' := by
  rw [if_neg]
  simp [h]

/-- The decode loop over a consecutive address window that contains an
unmapped address: the loop raises KeyError at the first unmapped address and
every field registered past it keeps its cached value. -/
theorem decodeFold_gap (mem : Nat → Nat) (rc : Option (List Entry)) (st0 : RState)
    (g : Nat) (hgap : hasField st0 g = false) :
    ∀ (n p : Nat) (st : RState), p ≤ g → g < p + n →
      (∀ a, p ≤ a → a < g → hasField st0 a = true) →
      (∀ i : Nat, ∀ r, st0.regs[i]? = some r →
        ∃ r', st.regs[i]? = some r' ∧ r'.address = r.address ∧ (g < r.address → r' = r)) →
      (st.regs.length = st0.regs.length) →
      (decodeFold st ((List.range n).map (fun j => (p + j, mem (p + j)))) rc).2
          = some PyErr.keyError
      ∧ ∀ i : Nat, ∀ r, st0.regs[i]? = some r → g < r.address →
          ((decodeFold st ((List.range n).map (fun j => (p + j, mem (p + j)))) rc).1).regs[i]?
            = some r := by
  intro n
  induction n with
  | zero => intro p st hp hcov _ _ _; omega
  | succ n' ih =>
    intro p st hp hcov hrange hpt hlen
    have hshape : (List.range (n' + 1)).map (fun j => (p + j, mem (p + j)))
        = (p, mem p) :: (List.range n').map (fun j => ((p + 1) + j, mem ((p + 1) + j))) := by
      rw [List.range_succ_eq_map, List.map_cons, List.map_map]
      refine congrArg₂ _ (by simp) ?_
      refine List.map_congr_left fun j _ => ?_
      have : p + (j + 1) = (p + 1) + j := by omega
      simp [Function.comp, Nat.succ_eq_add_one, this]
    rw [hshape]
    have haddr_eq : ∀ a, hasField st a = hasField st0 a := by
      intro a
      refine hasField_congr st0 st (fun i => ?_) a
      cases h0 : st0.regs[i]? with
      | none =>
        have : st.regs[i]? = none := by
          rw [List.getElem?_eq_none_iff] at h0 ⊢
          omega
        simp [this, h0]
      | some r =>
        obtain ⟨r', hr', hra, _⟩ := hpt i r h0
        simp [hr', h0, hra]
    by_cases hpg : p = g
    · subst hpg
      have hnf : hasField st p = false := (haddr_eq p).trans hgap
      constructor
      · simp only [decodeFold, updateSBR_of_not_hasField st p (mem p) false rc hnf]
      · intro i r h0 hgr
        simp only [decodeFold, updateSBR_of_not_hasField st p (mem p) false rc hnf]
        obtain ⟨r', hr', _, hid⟩ := hpt i r h0
        rw [hr', hid hgr]
    · have hplt : p < g := Nat.lt_of_le_of_ne hp hpg
      have hhf : hasField st p = true := (haddr_eq p).trans (hrange p le_rfl hplt)
      simp only [decodeFold, updateSBR_of_hasField st p (mem p) false rc hhf]
      refine ih (p + 1) _ (by omega) (by omega)
        (fun a ha1 ha2 => hrange a (by omega) ha2) ?_ (by simpa using hlen)
      intro i r h0
      obtain ⟨r', hr', hra, hid⟩ := hpt i r h0
      refine ⟨if r'.address == p && !(false && pyTruthy r'.writeable) && memberCheck rc r'
          then applyDecode (mem p) r' else r', ?_, ?_, ?_⟩
      · simp [hr']
      · rw [updMap_address]
        exact hra
      · intro hgr
        have hne : r'.address ≠ p := by
          rw [hra]
          omega
        rw [updMap_id_of_ne _ _ _ _ _ hne, hid hgr]

/-- C10.  `read_state` with `groupread=True` over a requested set whose
(sorted, deduplicated) address list is `a0 :: rest` issues one burst read
covering every address of `[min, max]` — gap addresses included — and when
`g` is the first fetched address with no registered fields, decoding raises
KeyError (a subclass of LookupError) there, leaving the cache of every field
at an address beyond `g` unchanged. -/
theorem readState_burst_gap_keyError (st : RState) (mem : Nat → Nat)
    (entries : List Entry) (u : Bool) (a0 : Nat) (rest : List Nat) (g : Nat)
    (haddrs : requestAddrs entries = Except.ok (a0 :: rest))
    (hg_lo : listMinD a0 rest ≤ g) (hg_hi : g ≤ listMaxD a0 rest)
    (hgap : hasField st g = false)
    (hfirst : ∀ a, listMinD a0 rest ≤ a → a < g → hasField st a = true) :
    (readState st mem (some entries) Groupread.gtrue u).raw = Except.error PyErr.keyError
    ∧ (readState st mem (some entries) Groupread.gtrue u).reads
        = [(listMinD a0 rest, some (listMaxD a0 rest - listMinD a0 rest + 1))]
    ∧ ∀ i : Nat, ∀ r, st.regs[i]? = some r → g < r.address →
        ((readState st mem (some entries) Groupread.gtrue u).state).regs[i]? = some r := by
  have hread : readRaw st mem (some entries) true
      = ([(listMinD a0 rest, some (listMaxD a0 rest - listMinD a0 rest + 1))],
         Except.ok ((List.range (listMaxD a0 rest - listMinD a0 rest + 1)).map
           (fun i => (listMinD a0 rest + i, mem (listMinD a0 rest + i))))) := by
    unfold readRaw
    dsimp only
    rw [haddrs]
    rfl
  have hcov : g < listMinD a0 rest + (listMaxD a0 rest - listMinD a0 rest + 1) := by omega
  have hdec := decodeFold_gap mem (if u then some entries else none) st g hgap
      (listMaxD a0 rest - listMinD a0 rest + 1) (listMinD a0 rest) st hg_lo hcov
      hfirst (fun i r h0 => ⟨r, h0, rfl, fun _ => rfl⟩) rfl
  rcases hd : decodeFold st ((List.range (listMaxD a0 rest - listMinD a0 rest + 1)).map
      (fun i => (listMinD a0 rest + i, mem (listMinD a0 rest + i))))
      (if u then some entries else none) with ⟨st', e⟩
  rw [hd] at hdec
  obtain ⟨he, hfr⟩ := hdec
  dsimp only at he
  subst he
  refine ⟨?_, ?_, ?_⟩
  · simp only [readState, readStateFlat, expandMultiregs, hread, hd]
  · simp only [readState, readStateFlat, expandMultiregs, hread, hd]
  · intro i r h0 hgr
    simp only [readState, readStateFlat, expandMultiregs, hread, hd]
    exact hfr i r h0 hgr

/-- Witness for `readState_burst_gap_keyError`: fields at addresses 0 and 2,
requested together with a burst read, fail decoding at the unmapped
address 1. -/
theorem readState_burst_gap_keyError_witness :
    (readState stateGap mem0xAB (some [Entry.plain "f0" 0, Entry.plain "f2" 2])
        Groupread.gtrue true).raw = Except.error PyErr.keyError :=
  (readState_burst_gap_keyError stateGap mem0xAB
    [Entry.plain "f0" 0, Entry.plain "f2" 2] true 0 [2] 1
    (by decide) (by decide) (by decide) (by decide)
    (fun a _ h1 => by
      have ha : a = 0 := by omega
      subst ha
      decide)).1

end StatefulRegisters
